import Mathlib

/-!
Verification of the HftSimulator core against its specification.

This file gives a shallow embedding, in Lean 4, of the parts of the
HftSimulator C++ repository that the specification's testable properties
talk about:

* the 64-bit byte-swap helpers of `src/common/hton_utils.h` and the
  field-wise byte-order conversions of `src/common/itch_message.h`;
* the single-producer single-consumer ring buffer of
  `src/common/spsc_ringbuffer.h` (`tryPush`, `tryPop`, `empty`, `full`,
  `size`, the statistics counters and the high-water mark);
* the capture-file loading and replay logic of
  `src/common/itch_message_udp_replayer.h` and the replay-timing
  computation of `include/itch_udp_replayer.h`;
* the lifecycle (`start` / `stop`) state machine of the UDP listener
  (`ItchUdpListener`).

Machine integers (`size_t`, `uint32_t`, `uint64_t`) are embedded as `Nat`
with wrap-around made explicit (`% 2 ^ 64`) exactly where the C++
arithmetic can wrap.  The concurrency of the real code is sequentialised:
each C++ member function becomes a pure state-transformer, which is
faithful for the single-threaded executions the claims quantify over.
-/

namespace HftSim

/-! ## Definitions: byte-order helpers (`src/common/hton_utils.h`) -/

/-- Embedding of `bswap64` from `hton_utils.h`: swap the eight bytes of a
64-bit integer using the same mask-shift-or combination as the source. -/
def bswap64 (x : Nat) : Nat :=
  ((x &&& 0xFF00000000000000) >>> 56) |||
  ((x &&& 0x00FF000000000000) >>> 40) |||
  ((x &&& 0x0000FF0000000000) >>> 24) |||
  ((x &&& 0x000000FF00000000) >>> 8)  |||
  ((x &&& 0x00000000FF000000) <<< 8)  |||
  ((x &&& 0x0000000000FF0000) <<< 24) |||
  ((x &&& 0x000000000000FF00) <<< 40) |||
  ((x &&& 0x00000000000000FF) <<< 56)

/-- Modelled from the spec: `ntohl` / `htonl` (from `arpa/inet.h`, not part
of this repository) perform 32-bit byte-order normalisation, which on the
little-endian hosts the code targets is the 4-byte swap. -/
def bswap32 (x : Nat) : Nat :=
  ((x &&& 0xFF000000) >>> 24) |||
  ((x &&& 0x00FF0000) >>> 8)  |||
  ((x &&& 0x0000FF00) <<< 8)  |||
  ((x &&& 0x000000FF) <<< 24)

/-- On a little-endian host `htonll` is `bswap64` (`hton_utils.h`). -/
def htonll (x : Nat) : Nat := bswap64 x

/-- On a little-endian host `ntohll` is `bswap64` (`hton_utils.h`). -/
def ntohll (x : Nat) : Nat := bswap64 x

/-- Wrap-around subtraction of `size_t` (64-bit) operands, as performed by
`_head - _tail` in `SpScRingBuffer::size` when `_tail > _head`. -/
def sub64 (a b : Nat) : Nat := (a + 2 ^ 64 - b) % 2 ^ 64

/-! ## Definitions: the ITCH message (`src/common/itch_message.h`) -/

/-- Embedding of `struct ItchMessage`.  The enumerations are kept as their
`uint8_t` codes, `symbol` is the eight raw `char` bytes, and the `double`
price is modelled by its exact value as a rational (no conversion ever
touches it, so only its identity matters here). -/
structure ItchMessage where
  type : Nat
  orderId : Nat
  symbol : List Nat
  size : Nat
  price : Rat
  side : Nat
  tsNanoSeconds : Nat
  sequenceNumber : Nat
  deriving Repr, DecidableEq

/-- Default-constructed `ItchMessage`: the C++ member initialisers
(`Unknown` type code 0, zero ids and sizes, zeroed symbol, price `0.0`,
side `Unknown` = 255, zero timestamps). -/
def ItchMessage.zero : ItchMessage :=
  { type := 0, orderId := 0, symbol := [0, 0, 0, 0, 0, 0, 0, 0], size := 0,
    price := 0, side := 255, tsNanoSeconds := 0, sequenceNumber := 0 }

instance : Inhabited ItchMessage := ⟨ItchMessage.zero⟩

/-- Embedding of `ItchMessage::toHostOrder`: `ntohl` on `orderId` and
`size`, `ntohll` on `sequenceNumber` and `tsNanoSeconds`; price and the
symbol bytes are untouched, exactly as in the source. -/
def ItchMessage.toHostOrder (m : ItchMessage) : ItchMessage :=
  { m with orderId := bswap32 m.orderId,
           size := bswap32 m.size,
           sequenceNumber := ntohll m.sequenceNumber,
           tsNanoSeconds := ntohll m.tsNanoSeconds }

/-- Embedding of `ItchMessage::toNetworkOrder`: `htonl` / `htonll` on the
same four fields, price and symbol untouched. -/
def ItchMessage.toNetworkOrder (m : ItchMessage) : ItchMessage :=
  { m with orderId := bswap32 m.orderId,
           size := bswap32 m.size,
           sequenceNumber := htonll m.sequenceNumber,
           tsNanoSeconds := htonll m.tsNanoSeconds }

/-- Field-width well-formedness of a message: each integer field fits the
width of its C++ type. -/
def ItchMessage.wf (m : ItchMessage) : Prop :=
  m.orderId < 2 ^ 32 ∧ m.size < 2 ^ 32 ∧
  m.tsNanoSeconds < 2 ^ 64 ∧ m.sequenceNumber < 2 ^ 64

instance (m : ItchMessage) : Decidable m.wf := by
  unfold ItchMessage.wf
  infer_instance

/-! ## Definitions: the SPSC ring buffer (`src/common/spsc_ringbuffer.h`)

The template parameter `Capacity` becomes an explicit `Nat` argument `C`
of each operation.  The slot array becomes a total function `Nat → T`
(only indices below `C` are ever read or written under the invariant).
The relaxed-atomic counters become plain fields: in the sequential
executions the claims are about, each `fetch_add` is a plain increment
and the `compare_exchange_weak` retry loop of `updateHighWaterMark`
succeeds on its first attempt, reducing to a conditional update. -/

structure SpScRingBuffer (T : Type) where
  buffer : Nat → T
  head : Nat
  tail : Nat
  droppedMessageCount : Nat
  pushedMessageCount : Nat
  poppedMessageCount : Nat
  highWaterMark : Nat

namespace SpScRingBuffer

variable {T : Type}

/-- The default-constructed buffer: `_head`, `_tail` and all statistics
counters zero-initialised; slot contents default-initialised. -/
def new [Inhabited T] : SpScRingBuffer T :=
  { buffer := fun _ => default, head := 0, tail := 0,
    droppedMessageCount := 0, pushedMessageCount := 0,
    poppedMessageCount := 0, highWaterMark := 0 }

/-- Embedding of `size()`: `(_head - _tail) & (Capacity - 1)` with the
`size_t` subtraction wrapping at `2 ^ 64`. -/
def size (C : Nat) (rb : SpScRingBuffer T) : Nat :=
  sub64 rb.head rb.tail &&& (C - 1)

/-- Embedding of `updateHighWaterMark()`: recompute the current occupancy
and raise `_highWaterMark` to it when it is larger (the sequential effect
of the compare-exchange retry loop). -/
def updateHighWaterMark (C : Nat) (rb : SpScRingBuffer T) : SpScRingBuffer T :=
  let currentSize := sub64 rb.head rb.tail &&& (C - 1)
  if rb.highWaterMark < currentSize then
    { rb with highWaterMark := currentSize }
  else rb

/-- Embedding of `tryPush`: compute the candidate head index with the
bitmask; if it equals `_tail` the buffer is full, the dropped counter is
bumped and `false` is returned; otherwise store the item at `_head`,
advance `_head`, bump the pushed counter and update the high-water mark.
(The copy and move overloads have identical state effect.) -/
def tryPush (C : Nat) (rb : SpScRingBuffer T) (item : T) : Bool × SpScRingBuffer T :=
  let nextHead := (rb.head + 1) &&& (C - 1)
  if nextHead == rb.tail then
    (false, { rb with droppedMessageCount := rb.droppedMessageCount + 1 })
  else
    (true, updateHighWaterMark C
      { rb with buffer := Function.update rb.buffer rb.head item,
                head := nextHead,
                pushedMessageCount := rb.pushedMessageCount + 1 })

/-- Embedding of `tryPop`: if `_tail == _head` the buffer is empty and the
call fails; otherwise the slot at `_tail` is handed out, `_tail` advances
with the bitmask and the popped counter is bumped.  The C++ out-parameter
plus `bool` return is rendered as `Option T`. -/
def tryPop (C : Nat) (rb : SpScRingBuffer T) : Option T × SpScRingBuffer T :=
  if rb.tail == rb.head then (none, rb)
  else
    (some (rb.buffer rb.tail),
     { rb with tail := (rb.tail + 1) &&& (C - 1),
               poppedMessageCount := rb.poppedMessageCount + 1 })

/-- The state produced by the successful branch of `tryPush` (named for
reuse in the lemmas below). -/
def pushState (C : Nat) (rb : SpScRingBuffer T) (item : T) : SpScRingBuffer T :=
  updateHighWaterMark C
    { rb with buffer := Function.update rb.buffer rb.head item,
              head := (rb.head + 1) &&& (C - 1),
              pushedMessageCount := rb.pushedMessageCount + 1 }

/-- The state produced by the successful branch of `tryPop`. -/
def popState (C : Nat) (rb : SpScRingBuffer T) : SpScRingBuffer T :=
  { rb with tail := (rb.tail + 1) &&& (C - 1),
            poppedMessageCount := rb.poppedMessageCount + 1 }

/-- Embedding of `empty()`: `_head == _tail`. -/
def empty (rb : SpScRingBuffer T) : Bool := rb.head == rb.tail

/-- Embedding of `full()`: `((_head + 1) & (Capacity - 1)) == _tail`. -/
def full (C : Nat) (rb : SpScRingBuffer T) : Bool :=
  ((rb.head + 1) &&& (C - 1)) == rb.tail

/-- Structural invariant of the buffer: both cursors lie in
`[0, Capacity)`. -/
def Inv (C : Nat) (rb : SpScRingBuffer T) : Prop :=
  rb.head < C ∧ rb.tail < C

instance (C : Nat) (rb : SpScRingBuffer T) : Decidable (Inv C rb) := by
  unfold Inv
  infer_instance

/-- Abstraction function: the queue contents, oldest first, read from the
slots `_tail, _tail + 1, …` (mod `C`) up to the current occupancy. -/
def toList (C : Nat) (rb : SpScRingBuffer T) : List T :=
  (List.range (size C rb)).map (fun i => rb.buffer ((rb.tail + i) % C))

/-- Push a whole list in order, reporting whether every push succeeded. -/
def pushList (C : Nat) (rb : SpScRingBuffer T) : List T → Bool × SpScRingBuffer T
  | [] => (true, rb)
  | x :: xs =>
      let r := tryPush C rb x
      let r' := pushList C r.2 xs
      (r.1 && r'.1, r'.2)

/-- Pop `n` times, collecting the successfully popped items in order; an
unsuccessful pop stops the collection. -/
def popN (C : Nat) (rb : SpScRingBuffer T) : Nat → List T × SpScRingBuffer T
  | 0 => ([], rb)
  | n + 1 =>
      match tryPop C rb with
      | (some x, rb') =>
          let r := popN C rb' n
          (x :: r.1, r.2)
      | (none, rb') => ([], rb')

end SpScRingBuffer

/-- A single sequential ring-buffer operation. -/
inductive RbOp (T : Type) where
  | push (x : T)
  | pop
  deriving Repr

/-- Apply one operation to the buffer state, discarding the returned
success flag / item. -/
def applyOp (C : Nat) (rb : SpScRingBuffer T) : RbOp T → SpScRingBuffer T
  | .push x => (rb.tryPush C x).2
  | .pop => (rb.tryPop C).2

/-- Apply a sequence of operations left to right. -/
def applyOps (C : Nat) (rb : SpScRingBuffer T) (ops : List (RbOp T)) : SpScRingBuffer T :=
  ops.foldl (applyOp C) rb

/-! ## Definitions: capacity contract (`static_assert` lines)

`src/common/spsc_ringbuffer.h` checks only
`(Capacity & (Capacity - 1)) == 0`; the `src/unnamed/part_006` variant of
the same class additionally checks `Capacity >= 2`.  `Capacity` is a
`size_t`, so `Capacity - 1` wraps at `2 ^ 64`. -/

/-- The capacity check of `src/common/spsc_ringbuffer.h` (power-of-two
bitmask test only). -/
def capacityCheckPow2 (c : Nat) : Bool := (c &&& sub64 c 1) == 0

/-- The capacity check of the `src/unnamed/part_006` ring-buffer variant:
the bitmask test plus `Capacity >= 2`. -/
def capacityCheckFull (c : Nat) : Bool := capacityCheckPow2 c && decide (2 ≤ c)

/-! ## Definitions: replay timing (`include/itch_udp_replayer.h`)

`UdpMessageReplayer::replay` reads captured messages in order and, for
each one, computes the nanosecond offset from replay start as
`(msg.tsNs - firstTs) / _speedFactor` truncated to `uint64_t`, where
`firstTs` is captured by `if (firstTs == 0) firstTs = msg.tsNs;`.  The
`double` arithmetic is modelled exactly over `ℚ` (the claims only involve
values that are exact in both), and the truncating cast is `Rat.floor`
(the quotient is non-negative). -/

/-- One step of the anchor update: `firstTs` starts at `0` and is
overwritten by the current timestamp whenever it is still `0`. -/
def replayDeltasAux (speed : Rat) : Nat → List Nat → List Nat
  | _, [] => []
  | firstTs, ts :: rest =>
      let firstTs' := if firstTs == 0 then ts else firstTs
      let delta := (Int.floor (((sub64 ts firstTs' : Nat) : Rat) / speed)).toNat
      delta :: replayDeltasAux speed firstTs' rest

/-- The per-message send offsets (in nanoseconds after `replayStart`)
computed by `UdpMessageReplayer::replay` for a capture whose records carry
the given timestamps. -/
def replayDeltas (speed : Rat) (tss : List Nat) : List Nat :=
  replayDeltasAux speed 0 tss

/-! ## Definitions: message loading and replay
(`src/common/itch_message_udp_replayer.h`) -/

/-- The replayer's memory-resident state: `_messages`, `_current_index`
and `_total_messages`. -/
structure ItchReplayerState where
  messages : List ItchMessage
  currentIndex : Nat
  totalMessages : Nat
  deriving Repr

/-- A freshly constructed `ItchMessageUdpReplayer`: empty message list,
`_current_index{0}` and `_total_messages{0}`. -/
def ItchReplayerState.fresh : ItchReplayerState :=
  { messages := [], currentIndex := 0, totalMessages := 0 }

/-- The validation test of `loadAllMessages`:
`msg.symbol[0] == '\0' || msg.size == 0 || msg.price <= 0.0`. -/
def invalidRecord (m : ItchMessage) : Bool :=
  m.symbol.getD 0 0 == 0 || m.size == 0 || decide (m.price ≤ 0)

/-- The record-reading loop of `loadAllMessages`: validate each record in
order, appending valid ones to `_messages`; an invalid record at `idx`
aborts with the exception message of the source, leaving the fields as
they are at that point (in particular `_total_messages` untouched). -/
def loadAllMessagesAux (st : ItchReplayerState) (idx : Nat) :
    List ItchMessage → Except String Unit × ItchReplayerState
  | [] =>
      if st.messages.isEmpty then
        (.error "No messages loaded from file", st)
      else
        (.ok (), { st with totalMessages := st.messages.length })
  | m :: rest =>
      if invalidRecord m then
        (.error ("Invalid message at index " ++ toString idx), st)
      else
        loadAllMessagesAux { st with messages := st.messages ++ [m] } (idx + 1) rest

/-- Embedding of `loadAllMessages()`: clear `_messages`, then read and
validate every record of the capture (`records` stands for the sequence of
records `ItchMessage::deserialize` yields — the `deserialize` body is not
in the repository, so reading is modelled from the spec's capture-file
description: records are consumed one by one in file order). -/
def loadAllMessages (records : List ItchMessage) (st : ItchReplayerState) :
    Except String Unit × ItchReplayerState :=
  loadAllMessagesAux { st with messages := [] } 0 records

/-- Embedding of `replayLoop` (with the stop flag never raised): send
`_messages[_current_index]` and advance while `_current_index` is below
`_total_messages`; returns the sent messages and the final state. -/
def replayLoop (st : ItchReplayerState) : List ItchMessage × ItchReplayerState :=
  if st.currentIndex < st.totalMessages then
    let m := st.messages.getD st.currentIndex default
    let r := replayLoop { st with currentIndex := st.currentIndex + 1 }
    (m :: r.1, r.2)
  else ([], st)
termination_by st.totalMessages - st.currentIndex
decreasing_by simp_wf; omega

/-! ## Definitions: listener lifecycle (`src/unnamed/part_007`,
`ItchUdpListener`)

The lifecycle-relevant fields of the listener are its two atomic flags,
the owned thread and the socket descriptor.  `start` and `stop` are the
sequential state-transformers of the C++ members; the ghost field
`joinCount` counts how many times `_thread.join()` has actually been
executed, making double-joins observable in the model. -/

structure ItchUdpListener where
  shouldStop : Bool
  isRunning : Bool
  threadJoinable : Bool
  socketOpen : Bool
  joinCount : Nat
  deriving Repr, DecidableEq

/-- A listener as constructed: stop flag clear, not running, no thread,
socket descriptor `-1`. -/
def ItchUdpListener.fresh : ItchUdpListener :=
  { shouldStop := false, isRunning := false, threadJoinable := false,
    socketOpen := false, joinCount := 0 }

/-- Embedding of `ItchUdpListener::start`: throw (error, no state change)
when `_isRunning` is set; otherwise launch the thread and mark running. -/
def ItchUdpListener.start (l : ItchUdpListener) : Except String ItchUdpListener :=
  if l.isRunning then .error "ItchUdpListener already running"
  else .ok { l with threadJoinable := true, isRunning := true }

/-- Embedding of `ItchUdpListener::stop`: raise the stop flag, join the
thread only if it is joinable, close the socket if open, clear
`_isRunning`. -/
def ItchUdpListener.stop (l : ItchUdpListener) : ItchUdpListener :=
  { shouldStop := true,
    isRunning := false,
    threadJoinable := false,
    socketOpen := false,
    joinCount := l.joinCount + (if l.threadJoinable then 1 else 0) }

/-! ## Theorems -/

/-- Bit-level characterisation of `bswap64`: bit `i` of the result is the
byte-reversed bit of the input below 64, and zero above. -/
theorem testBit_bswap64 (x i : Nat) :
    (bswap64 x).testBit i =
      if i < 64 then x.testBit (8 * (7 - i / 8) + i % 8) else false := by
  have m7 : (0xFF00000000000000 : Nat) = (2 ^ 8 - 1) <<< 56 := by norm_num [Nat.shiftLeft_eq]
  have m6 : (0x00FF000000000000 : Nat) = (2 ^ 8 - 1) <<< 48 := by norm_num [Nat.shiftLeft_eq]
  have m5 : (0x0000FF0000000000 : Nat) = (2 ^ 8 - 1) <<< 40 := by norm_num [Nat.shiftLeft_eq]
  have m4 : (0x000000FF00000000 : Nat) = (2 ^ 8 - 1) <<< 32 := by norm_num [Nat.shiftLeft_eq]
  have m3 : (0x00000000FF000000 : Nat) = (2 ^ 8 - 1) <<< 24 := by norm_num [Nat.shiftLeft_eq]
  have m2 : (0x0000000000FF0000 : Nat) = (2 ^ 8 - 1) <<< 16 := by norm_num [Nat.shiftLeft_eq]
  have m1 : (0x000000000000FF00 : Nat) = (2 ^ 8 - 1) <<< 8 := by norm_num [Nat.shiftLeft_eq]
  have m0 : (0x00000000000000FF : Nat) = (2 ^ 8 - 1) := by norm_num
  rw [bswap64, m7, m6, m5, m4, m3, m2, m1, m0]
  simp only [Nat.testBit_lor, Nat.testBit_land, Nat.testBit_shiftLeft,
    Nat.testBit_shiftRight, Nat.testBit_two_pow_sub_one]
  by_cases h : i < 64
  · interval_cases i <;> simp
  · simp only [if_neg h]
    have h7 : ¬ (56 + i - 56 < 8) := by omega
    have h6 : ¬ (40 + i - 48 < 8) := by omega
    have h5 : ¬ (24 + i - 40 < 8) := by omega
    have h4 : ¬ (8 + i - 32 < 8) := by omega
    have h3 : ¬ (i - 8 - 24 < 8) := by omega
    have h2 : ¬ (i - 24 - 16 < 8) := by omega
    have h1 : ¬ (i - 40 - 8 < 8) := by omega
    have h0 : ¬ (i - 56 - 0 < 8) := by omega
    simp [h7, h6, h5, h4, h3, h2, h1, h0]
    omega

/-- Bit-level characterisation of `bswap32`, the 32-bit analogue. -/
theorem testBit_bswap32 (x i : Nat) :
    (bswap32 x).testBit i =
      if i < 32 then x.testBit (8 * (3 - i / 8) + i % 8) else false := by
  have m3 : (0xFF000000 : Nat) = (2 ^ 8 - 1) <<< 24 := by norm_num [Nat.shiftLeft_eq]
  have m2 : (0x00FF0000 : Nat) = (2 ^ 8 - 1) <<< 16 := by norm_num [Nat.shiftLeft_eq]
  have m1 : (0x0000FF00 : Nat) = (2 ^ 8 - 1) <<< 8 := by norm_num [Nat.shiftLeft_eq]
  have m0 : (0x000000FF : Nat) = (2 ^ 8 - 1) := by norm_num
  rw [bswap32, m3, m2, m1, m0]
  simp only [Nat.testBit_lor, Nat.testBit_land, Nat.testBit_shiftLeft,
    Nat.testBit_shiftRight, Nat.testBit_two_pow_sub_one]
  by_cases h : i < 32
  · interval_cases i <;> simp
  · simp only [if_neg h]
    have h3 : ¬ (24 + i - 24 < 8) := by omega
    have h2 : ¬ (8 + i - 16 < 8) := by omega
    have h1 : ¬ (i - 8 - 8 < 8) := by omega
    have h0 : ¬ (i - 24 - 0 < 8) := by omega
    simp [h3, h2, h1, h0]
    omega

/-- Applying `bswap64` twice reproduces any 64-bit value. -/
theorem bswap64_bswap64 (x : Nat) (hx : x < 2 ^ 64) : bswap64 (bswap64 x) = x := by
  apply Nat.eq_of_testBit_eq
  intro i
  rw [testBit_bswap64, testBit_bswap64]
  by_cases h : i < 64
  · have hlt : 8 * (7 - i / 8) + i % 8 < 64 := by omega
    rw [if_pos h, if_pos hlt]
    congr 1
    omega
  · rw [if_neg h]
    exact (Nat.testBit_eq_false_of_lt
      (lt_of_lt_of_le hx (Nat.pow_le_pow_right (by norm_num) (by omega)))).symm

/-- Applying `bswap32` twice reproduces any 32-bit value. -/
theorem bswap32_bswap32 (x : Nat) (hx : x < 2 ^ 32) : bswap32 (bswap32 x) = x := by
  apply Nat.eq_of_testBit_eq
  intro i
  rw [testBit_bswap32, testBit_bswap32]
  by_cases h : i < 32
  · have hlt : 8 * (3 - i / 8) + i % 8 < 32 := by omega
    rw [if_pos h, if_pos hlt]
    congr 1
    omega
  · rw [if_neg h]
    exact (Nat.testBit_eq_false_of_lt
      (lt_of_lt_of_le hx (Nat.pow_le_pow_right (by norm_num) (by omega)))).symm

/-- C6: converting a well-formed message to network order and back to host
order reproduces every field bit-for-bit, and both conversions pass the
symbol bytes and the floating-point price through unchanged. -/
theorem itchMessage_roundTrip (m : ItchMessage) (hm : m.wf) :
    m.toNetworkOrder.toHostOrder = m ∧
    m.toNetworkOrder.symbol = m.symbol ∧ m.toNetworkOrder.price = m.price ∧
    m.toHostOrder.symbol = m.symbol ∧ m.toHostOrder.price = m.price := by
  obtain ⟨h1, h2, h3, h4⟩ := hm
  refine ⟨?_, rfl, rfl, rfl, rfl⟩
  cases m
  simp only [ItchMessage.toNetworkOrder, ItchMessage.toHostOrder, htonll, ntohll] at *
  simp_all [bswap32_bswap32, bswap64_bswap64]

namespace SpScRingBuffer

variable {T : Type}

/-- With a power-of-two capacity the bitmask is reduction mod `C`. -/
theorem and_mask {C k : Nat} (hC : C = 2 ^ k) (x : Nat) : x &&& (C - 1) = x % C := by
  subst hC
  exact Nat.and_pow_two_sub_one_eq_mod x k

/-- Every statistics-preserving projection of `updateHighWaterMark`. -/
@[simp] theorem uhwm_buffer (C : Nat) (s : SpScRingBuffer T) :
    (updateHighWaterMark C s).buffer = s.buffer := by
  rw [updateHighWaterMark]
  split <;> rfl

/-- The head cursor is untouched by the high-water-mark update. -/
@[simp] theorem uhwm_head (C : Nat) (s : SpScRingBuffer T) :
    (updateHighWaterMark C s).head = s.head := by
  rw [updateHighWaterMark]
  split <;> rfl

/-- The tail cursor is untouched by the high-water-mark update. -/
@[simp] theorem uhwm_tail (C : Nat) (s : SpScRingBuffer T) :
    (updateHighWaterMark C s).tail = s.tail := by
  rw [updateHighWaterMark]
  split <;> rfl

/-- The dropped counter is untouched by the high-water-mark update. -/
@[simp] theorem uhwm_dropped (C : Nat) (s : SpScRingBuffer T) :
    (updateHighWaterMark C s).droppedMessageCount = s.droppedMessageCount := by
  rw [updateHighWaterMark]
  split <;> rfl

/-- The pushed counter is untouched by the high-water-mark update. -/
@[simp] theorem uhwm_pushed (C : Nat) (s : SpScRingBuffer T) :
    (updateHighWaterMark C s).pushedMessageCount = s.pushedMessageCount := by
  rw [updateHighWaterMark]
  split <;> rfl

/-- The popped counter is untouched by the high-water-mark update. -/
@[simp] theorem uhwm_popped (C : Nat) (s : SpScRingBuffer T) :
    (updateHighWaterMark C s).poppedMessageCount = s.poppedMessageCount := by
  rw [updateHighWaterMark]
  split <;> rfl

/-- Occupancy only reads the cursors, so it commutes with the
high-water-mark update. -/
@[simp] theorem uhwm_size (C C' : Nat) (s : SpScRingBuffer T) :
    size C (updateHighWaterMark C' s) = size C s := by
  rw [size, size, uhwm_head, uhwm_tail]

/-- Contents only read the cursors and slots, so they commute with the
high-water-mark update. -/
@[simp] theorem uhwm_toList (C C' : Nat) (s : SpScRingBuffer T) :
    toList C (updateHighWaterMark C' s) = toList C s := by
  rw [toList, toList, uhwm_buffer, uhwm_tail, uhwm_size]

/-- The occupancy formula: under the invariant, `size()` computes
`(head - tail) mod C` in the mathematical sense. -/
theorem sizeEq {C k : Nat} (hC : C = 2 ^ k) (hk64 : k ≤ 64) (rb : SpScRingBuffer T)
    (hInv : Inv C rb) : size C rb = (rb.head + C - rb.tail) % C := by
  obtain ⟨hh, ht⟩ := hInv
  have hdvd : C ∣ 2 ^ 64 := hC ▸ Nat.pow_dvd_pow 2 hk64
  have hCle : C ≤ 2 ^ 64 := Nat.le_of_dvd (by norm_num) hdvd
  obtain ⟨t, htt⟩ := hdvd
  have h2 : C * (t - 1) = 2 ^ 64 - C := by
    rw [Nat.mul_sub, mul_one, ← htt]
  have h1 : rb.head + 2 ^ 64 - rb.tail = (rb.head + C - rb.tail) + (2 ^ 64 - C) := by
    omega
  rw [size, sub64, and_mask hC, Nat.mod_mod_of_dvd _ ⟨t, htt⟩, h1, ← h2,
    Nat.add_mul_mod_self_left]

/-- The occupancy is always below the capacity. -/
theorem size_lt {C k : Nat} (hC : C = 2 ^ k) (hk64 : k ≤ 64) (rb : SpScRingBuffer T)
    (hInv : Inv C rb) : size C rb < C := by
  rw [sizeEq hC hk64 rb hInv]
  exact Nat.mod_lt _ (by subst hC; positivity)

/-- Case split for `(a + C - b) % C` with both operands below `C`. -/
theorem mod_sub_cases {C a b : Nat} (ha : a < C) (hb : b < C) :
    (a + C - b) % C = if b ≤ a then a - b else a + C - b := by
  split
  · have h : a + C - b = (a - b) + C := by omega
    rw [h, Nat.add_mod_right, Nat.mod_eq_of_lt (by omega)]
  · exact Nat.mod_eq_of_lt (by omega)

/-- Decrementing under mod, when the value is not a multiple of `C`. -/
theorem mod_pred {C d : Nat} (hC : 0 < C) (hd : d % C ≠ 0) :
    (d - 1) % C = d % C - 1 := by
  have h0 := Nat.div_add_mod d C
  have hlt := Nat.mod_lt d hC
  have h1 : d - 1 = C * (d / C) + (d % C - 1) := by omega
  rw [h1, Nat.mul_add_mod, Nat.mod_eq_of_lt (by omega)]

/-- The buffer is empty exactly when the occupancy is zero. -/
theorem empty_iff {C k : Nat} (hC : C = 2 ^ k) (hk64 : k ≤ 64) (rb : SpScRingBuffer T)
    (hInv : Inv C rb) : empty rb = true ↔ size C rb = 0 := by
  obtain ⟨hh, ht⟩ := hInv
  rw [empty, sizeEq hC hk64 rb ⟨hh, ht⟩, mod_sub_cases hh ht, beq_iff_eq]
  split <;> omega

/-- The buffer is full exactly when the occupancy is `C - 1`. -/
theorem full_iff {C k : Nat} (hC : C = 2 ^ k) (hk : 1 ≤ k) (hk64 : k ≤ 64)
    (rb : SpScRingBuffer T) (hInv : Inv C rb) :
    full C rb = true ↔ size C rb = C - 1 := by
  obtain ⟨hh, ht⟩ := hInv
  have hC2 : 2 ≤ C := by
    rw [hC]
    calc 2 = 2 ^ 1 := rfl
    _ ≤ 2 ^ k := Nat.pow_le_pow_right (by norm_num) hk
  have hhc : (rb.head + 1) % C = if rb.head + 1 = C then 0 else rb.head + 1 := by
    split
    · rw [show rb.head + 1 = C by assumption, Nat.mod_self]
    · exact Nat.mod_eq_of_lt (by omega)
  rw [full, and_mask hC, sizeEq hC hk64 rb ⟨hh, ht⟩, mod_sub_cases hh ht, hhc, beq_iff_eq]
  split <;> split <;> omega

/-- Under the invariant the head cursor is the tail advanced by the
occupancy. -/
theorem head_eq {C k : Nat} (hC : C = 2 ^ k) (hk64 : k ≤ 64) (rb : SpScRingBuffer T)
    (hInv : Inv C rb) : (rb.tail + size C rb) % C = rb.head := by
  obtain ⟨hh, ht⟩ := hInv
  rw [sizeEq hC hk64 rb ⟨hh, ht⟩, Nat.add_mod_mod]
  have h1 : rb.tail + (rb.head + C - rb.tail) = rb.head + C := by omega
  rw [h1, Nat.add_mod_right, Nat.mod_eq_of_lt hh]

/-- The length of the abstract contents is the reported occupancy. -/
theorem length_toList (C : Nat) (rb : SpScRingBuffer T) :
    (toList C rb).length = size C rb := by
  simp [toList]

/-- Unfolding `tryPush` on a full buffer. -/
theorem tryPush_full_eq (C : Nat) (rb : SpScRingBuffer T) (x : T)
    (hf : full C rb = true) :
    tryPush C rb x =
      (false, { rb with droppedMessageCount := rb.droppedMessageCount + 1 }) := by
  have hcond : (((rb.head + 1) &&& (C - 1)) == rb.tail) = true := hf
  simp [tryPush, hcond]

/-- Unfolding `tryPush` on a buffer that is not full. -/
theorem tryPush_not_full_eq (C : Nat) (rb : SpScRingBuffer T) (x : T)
    (hnf : full C rb = false) :
    tryPush C rb x = (true, pushState C rb x) := by
  have hcond : (((rb.head + 1) &&& (C - 1)) == rb.tail) = false := hnf
  simp [tryPush, pushState, hcond]

/-- Unfolding `tryPop` on an empty buffer. -/
theorem tryPop_at_empty (C : Nat) (rb : SpScRingBuffer T)
    (he : empty rb = true) : tryPop C rb = (none, rb) := by
  have heq : rb.tail = rb.head := (beq_iff_eq.mp he).symm
  simp [tryPop, heq]

/-- Unfolding `tryPop` on a buffer that is not empty. -/
theorem tryPop_not_empty_eq (C : Nat) (rb : SpScRingBuffer T)
    (hne : empty rb = false) :
    tryPop C rb = (some (rb.buffer rb.tail), popState C rb) := by
  have hne' : rb.head ≠ rb.tail := by
    intro h
    rw [empty, h] at hne
    simp at hne
  have hcond : (rb.tail == rb.head) = false := by
    rw [beq_eq_false_iff_ne]
    exact Ne.symm hne'
  simp [tryPop, popState, hcond]

/-- Effect of a successful push: the invariant is preserved, the occupancy
grows by one, the item is appended to the abstract contents, and only the
pushed counter moves. -/
theorem pushState_spec {C k : Nat} (hC : C = 2 ^ k) (hk : 1 ≤ k) (hk64 : k ≤ 64)
    (rb : SpScRingBuffer T) (hInv : Inv C rb) (hnf : full C rb = false) (x : T) :
    Inv C (pushState C rb x) ∧
    size C (pushState C rb x) = size C rb + 1 ∧
    toList C (pushState C rb x) = toList C rb ++ [x] ∧
    (pushState C rb x).tail = rb.tail ∧
    (pushState C rb x).pushedMessageCount = rb.pushedMessageCount + 1 ∧
    (pushState C rb x).poppedMessageCount = rb.poppedMessageCount ∧
    (pushState C rb x).droppedMessageCount = rb.droppedMessageCount := by
  obtain ⟨hh, ht⟩ := hInv
  have hCpos : 0 < C := by subst hC; positivity
  have hszlt : size C rb < C := size_lt hC hk64 rb ⟨hh, ht⟩
  have hszne : size C rb ≠ C - 1 := by
    intro h
    rw [← full_iff hC hk hk64 rb ⟨hh, ht⟩] at h
    rw [h] at hnf
    simp at hnf
  have hC2 : 2 ≤ C := by
    rw [hC]
    calc 2 = 2 ^ 1 := rfl
    _ ≤ 2 ^ k := Nat.pow_le_pow_right (by norm_num) hk
  set rb1 : SpScRingBuffer T :=
    { rb with buffer := Function.update rb.buffer rb.head x,
              head := (rb.head + 1) &&& (C - 1),
              pushedMessageCount := rb.pushedMessageCount + 1 } with hrb1
  have hps : pushState C rb x = updateHighWaterMark C rb1 := rfl
  have hh1 : rb1.head = (rb.head + 1) % C := and_mask hC (rb.head + 1)
  have hInv1 : Inv C rb1 := by
    refine ⟨?_, ht⟩
    rw [hh1]
    exact Nat.mod_lt _ hCpos
  have hsz1 : size C rb1 = size C rb + 1 := by
    rw [sizeEq hC hk64 rb1 hInv1, hh1]
    have e1 : (rb.head + 1) % C + C - rb.tail = (rb.head + 1) % C + (C - rb.tail) := by
      omega
    rw [e1, Nat.mod_add_mod]
    have e2 : rb.head + 1 + (C - rb.tail) = (rb.head + C - rb.tail) + 1 := by omega
    rw [e2, ← Nat.mod_add_mod, ← sizeEq hC hk64 rb ⟨hh, ht⟩]
    exact Nat.mod_eq_of_lt (by omega)
  have htl1 : toList C rb1 = toList C rb ++ [x] := by
    rw [toList, hsz1, List.range_succ, List.map_append]
    congr 1
    · apply List.map_congr_left
      intro i hi
      have hilt : i < size C rb := List.mem_range.mp hi
      have hne : (rb.tail + i) % C ≠ rb.head := by
        intro heq
        have hmod : (rb.tail + i) % C = (rb.tail + size C rb) % C := by
          rw [heq, head_eq hC hk64 rb ⟨hh, ht⟩]
        have hieq : i % C = size C rb % C :=
          Nat.ModEq.add_left_cancel' rb.tail hmod
        rw [Nat.mod_eq_of_lt (lt_trans hilt hszlt), Nat.mod_eq_of_lt hszlt] at hieq
        omega
      show rb1.buffer ((rb1.tail + i) % C) = rb.buffer ((rb.tail + i) % C)
      have hbt : rb1.tail = rb.tail := rfl
      rw [hbt]
      exact Function.update_noteq hne x rb.buffer
    · show [rb1.buffer ((rb1.tail + size C rb) % C)] = [x]
      have hbt : rb1.tail = rb.tail := rfl
      rw [hbt, head_eq hC hk64 rb ⟨hh, ht⟩]
      show [Function.update rb.buffer rb.head x rb.head] = [x]
      rw [Function.update_same]
  refine ⟨?_, ?_, ?_, ?_, ?_, ?_, ?_⟩
  · rw [hps]
    exact ⟨by rw [uhwm_head]; exact hInv1.1, by rw [uhwm_tail]; exact hInv1.2⟩
  · rw [hps, uhwm_size, hsz1]
  · rw [hps, uhwm_toList, htl1]
  · rw [hps, uhwm_tail]
  · rw [hps, uhwm_pushed]
  · rw [hps, uhwm_popped]
  · rw [hps, uhwm_dropped]

/-- Effect of a successful pop: the invariant is preserved, the occupancy
shrinks by one, the abstract contents lose their oldest element (which is
the value handed out), and only the popped counter moves. -/
theorem popState_spec {C k : Nat} (hC : C = 2 ^ k) (hk64 : k ≤ 64)
    (rb : SpScRingBuffer T) (hInv : Inv C rb) (hne : empty rb = false) :
    Inv C (popState C rb) ∧
    size C (popState C rb) + 1 = size C rb ∧
    toList C rb = rb.buffer rb.tail :: toList C (popState C rb) ∧
    (popState C rb).head = rb.head ∧
    (popState C rb).buffer = rb.buffer ∧
    (popState C rb).poppedMessageCount = rb.poppedMessageCount + 1 ∧
    (popState C rb).pushedMessageCount = rb.pushedMessageCount ∧
    (popState C rb).droppedMessageCount = rb.droppedMessageCount := by
  obtain ⟨hh, ht⟩ := hInv
  have hCpos : 0 < C := by subst hC; positivity
  have hsz0 : size C rb ≠ 0 := by
    intro h
    rw [(empty_iff hC hk64 rb ⟨hh, ht⟩).mpr h] at hne
    simp at hne
  have htl1 : (popState C rb).tail = (rb.tail + 1) % C := and_mask hC (rb.tail + 1)
  have hInv1 : Inv C (popState C rb) := by
    refine ⟨hh, ?_⟩
    rw [htl1]
    exact Nat.mod_lt _ hCpos
  have hsz1 : size C (popState C rb) + 1 = size C rb := by
    rw [sizeEq hC hk64 _ hInv1, htl1, sizeEq hC hk64 rb ⟨hh, ht⟩]
    have hhd : (popState C rb).head = rb.head := rfl
    rw [hhd]
    by_cases htc : rb.tail + 1 = C
    · have htl0 : (rb.tail + 1) % C = 0 := by rw [htc, Nat.mod_self]
      rw [htl0]
      have e1 : rb.head + C - 0 = rb.head + C := by omega
      rw [e1, Nat.add_mod_right, Nat.mod_eq_of_lt hh]
      have e2 : rb.head + C - rb.tail = rb.head + 1 := by omega
      rw [e2]
      have hszeq : (rb.head + 1) % C ≠ 0 := by
        rw [← e2, ← sizeEq hC hk64 rb ⟨hh, ht⟩]
        · exact hsz0
      have hlt : rb.head + 1 < C := by
        rcases Nat.lt_or_ge (rb.head + 1) C with h | h
        · exact h
        · exfalso
          have : rb.head + 1 = C := by omega
          rw [this, Nat.mod_self] at hszeq
          exact hszeq rfl
      rw [Nat.mod_eq_of_lt hlt]
    · have hlt : rb.tail + 1 < C := by omega
      rw [Nat.mod_eq_of_lt hlt]
      have e1 : rb.head + C - (rb.tail + 1) = (rb.head + C - rb.tail) - 1 := by omega
      rw [e1, mod_pred hCpos]
      · have h1 : (rb.head + C - rb.tail) % C ≠ 0 := by
          rw [← sizeEq hC hk64 rb ⟨hh, ht⟩]
          exact hsz0
        have h2 : (rb.head + C - rb.tail) % C < C := Nat.mod_lt _ hCpos
        omega
      · rw [← sizeEq hC hk64 rb ⟨hh, ht⟩]
        exact hsz0
  have htl : toList C rb = rb.buffer rb.tail :: toList C (popState C rb) := by
    rw [toList, toList, ← hsz1, List.range_succ_eq_map, List.map_cons, List.map_map]
    congr 1
    · rw [Nat.add_zero, Nat.mod_eq_of_lt ht]
    · apply List.map_congr_left
      intro i _
      show rb.buffer ((rb.tail + Nat.succ i) % C) =
        (popState C rb).buffer (((popState C rb).tail + i) % C)
      have hbb : (popState C rb).buffer = rb.buffer := rfl
      rw [hbb, htl1, Nat.mod_add_mod]
      have e : rb.tail + 1 + i = rb.tail + Nat.succ i := by omega
      rw [e]
  exact ⟨hInv1, hsz1, htl, rfl, rfl, rfl, rfl, rfl⟩

/-- Pushing a list into a buffer with enough free slots succeeds entirely
and appends the whole list, in order, to the abstract contents. -/
theorem pushList_spec {C k : Nat} (hC : C = 2 ^ k) (hk : 1 ≤ k) (hk64 : k ≤ 64) :
    ∀ (L : List T) (rb : SpScRingBuffer T), Inv C rb →
      size C rb + L.length ≤ C - 1 →
      (pushList C rb L).1 = true ∧ Inv C (pushList C rb L).2 ∧
      toList C (pushList C rb L).2 = toList C rb ++ L := by
  intro L
  induction L with
  | nil =>
      intro rb hInv _
      exact ⟨rfl, hInv, by simp [pushList]⟩
  | cons x xs ih =>
      intro rb hInv hlen
      have hnf : full C rb = false := by
        cases hF : full C rb
        · rfl
        · exfalso
          have := (full_iff hC hk hk64 rb hInv).mp hF
          simp only [List.length_cons] at hlen
          omega
      have heq := tryPush_not_full_eq C rb x hnf
      obtain ⟨hInv1, hsz1, htl1, -, -, -, -⟩ := pushState_spec hC hk hk64 rb hInv hnf x
      have hlen1 : size C (pushState C rb x) + xs.length ≤ C - 1 := by
        rw [hsz1]
        simp only [List.length_cons] at hlen
        omega
      obtain ⟨ih1, ih2, ih3⟩ := ih (pushState C rb x) hInv1 hlen1
      refine ⟨?_, ?_, ?_⟩
      · simp only [pushList, heq, ih1, Bool.and_self]
      · simp only [pushList, heq]
        exact ih2
      · simp only [pushList, heq]
        rw [ih3, htl1, List.append_assoc]
        rfl

/-- Popping as many times as the buffer holds returns exactly the abstract
contents, oldest first. -/
theorem popN_spec {C k : Nat} (hC : C = 2 ^ k) (hk64 : k ≤ 64) :
    ∀ (M : List T) (rb : SpScRingBuffer T), Inv C rb → toList C rb = M →
      (popN C rb M.length).1 = M := by
  intro M
  induction M with
  | nil => intro rb _ _; rfl
  | cons a M' ih =>
      intro rb hInv htl
      have hne : empty rb = false := by
        cases hE : empty rb
        · rfl
        · exfalso
          have h0 := (empty_iff hC hk64 rb hInv).mp hE
          have := length_toList C rb
          rw [htl, h0] at this
          simp at this
      obtain ⟨hInv1, -, htl1, -, -, -, -, -⟩ := popState_spec hC hk64 rb hInv hne
      rw [htl] at htl1
      have hhead : a = rb.buffer rb.tail := (List.cons.injEq _ _ _ _ ▸ htl1).1
      have htail : toList C (popState C rb) = M' := ((List.cons.injEq _ _ _ _ ▸ htl1).2).symm
      have heq := tryPop_not_empty_eq C rb hne
      simp only [List.length_cons, popN, heq]
      rw [ih (popState C rb) hInv1 htail, hhead]

/-- A buffer of capacity 1 (usable capacity 0) is permanently full. -/
theorem full_of_capacity_one {rb : SpScRingBuffer T} (hInv : Inv 1 rb) :
    full 1 rb = true := by
  obtain ⟨hh, ht⟩ := hInv
  have h0 : rb.head = 0 := by omega
  have t0 : rb.tail = 0 := by omega
  rw [full, h0, t0]
  decide

/-- A fresh buffer has occupancy zero. -/
theorem size_new (C : Nat) [Inhabited T] : size C (new : SpScRingBuffer T) = 0 := by
  have h : sub64 0 0 = 0 := by norm_num [sub64]
  show sub64 0 0 &&& (C - 1) = 0
  rw [h, Nat.zero_and]

/-- A fresh buffer has empty abstract contents. -/
theorem toList_new (C : Nat) [Inhabited T] : toList C (new : SpScRingBuffer T) = [] :=
  List.eq_nil_of_length_eq_zero (by rw [length_toList, size_new])

/-- The fresh buffer satisfies the invariant for any positive capacity. -/
theorem inv_new {C : Nat} (hC : 0 < C) [Inhabited T] :
    Inv C (new : SpScRingBuffer T) := ⟨hC, hC⟩

/-- Every single operation leaves each statistics counter no smaller than
it was. -/
theorem applyOp_counters_mono (C : Nat) (rb : SpScRingBuffer T) (op : RbOp T) :
    rb.droppedMessageCount ≤ (applyOp C rb op).droppedMessageCount ∧
    rb.pushedMessageCount ≤ (applyOp C rb op).pushedMessageCount ∧
    rb.poppedMessageCount ≤ (applyOp C rb op).poppedMessageCount := by
  cases op with
  | push x =>
      cases hF : full C rb
      · rw [applyOp, tryPush_not_full_eq C rb x hF]
        refine ⟨?_, ?_, ?_⟩ <;> simp [pushState]
      · rw [applyOp, tryPush_full_eq C rb x hF]
        exact ⟨Nat.le_succ _, Nat.le_refl _, Nat.le_refl _⟩
  | pop =>
      cases hE : empty rb
      · rw [applyOp, tryPop_not_empty_eq C rb hE]
        exact ⟨Nat.le_refl _, Nat.le_refl _, Nat.le_succ _⟩
      · rw [applyOp, tryPop_at_empty C rb hE]
        exact ⟨Nat.le_refl _, Nat.le_refl _, Nat.le_refl _⟩

/-- Any sequence of operations from the fresh buffer keeps the invariant
and the accounting identity `pushed = popped + size`. -/
theorem applyOps_counter_inv {C k : Nat} (hC : C = 2 ^ k) (hk64 : k ≤ 64)
    [Inhabited T] (ops : List (RbOp T)) :
    Inv C (applyOps C (new : SpScRingBuffer T) ops) ∧
    (applyOps C (new : SpScRingBuffer T) ops).pushedMessageCount =
      (applyOps C (new : SpScRingBuffer T) ops).poppedMessageCount +
        size C (applyOps C (new : SpScRingBuffer T) ops) := by
  have hCpos : 0 < C := by subst hC; positivity
  suffices h : ∀ (ops : List (RbOp T)) (rb : SpScRingBuffer T), Inv C rb →
      rb.pushedMessageCount = rb.poppedMessageCount + size C rb →
      Inv C (applyOps C rb ops) ∧
      (applyOps C rb ops).pushedMessageCount =
        (applyOps C rb ops).poppedMessageCount + size C (applyOps C rb ops) by
    exact h ops new (inv_new hCpos) (by rw [size_new]; rfl)
  intro ops
  induction ops with
  | nil => intro rb h1 h2; exact ⟨h1, h2⟩
  | cons op ops ih =>
      intro rb h1 h2
      have hstep : Inv C (applyOp C rb op) ∧
          (applyOp C rb op).pushedMessageCount =
            (applyOp C rb op).poppedMessageCount + size C (applyOp C rb op) := by
        cases op with
        | push x =>
            cases hF : full C rb
            · have hk : 1 ≤ k := by
                by_contra hcon
                have hk0 : k = 0 := by omega
                have hC1 : C = 1 := by rw [hC, hk0]; decide
                subst hC1
                rw [full_of_capacity_one h1] at hF
                simp at hF
              rw [applyOp, tryPush_not_full_eq C rb x hF]
              obtain ⟨hi, hs, -, -, hpu, hpo, -⟩ :=
                pushState_spec hC hk hk64 rb h1 hF x
              exact ⟨hi, by rw [hpu, hpo, hs]; omega⟩
            · rw [applyOp, tryPush_full_eq C rb x hF]
              exact ⟨h1, h2⟩
        | pop =>
            cases hE : empty rb
            · rw [applyOp, tryPop_not_empty_eq C rb hE]
              obtain ⟨hi, hs, -, -, -, hpo, hpu, -⟩ :=
                popState_spec hC hk64 rb h1 hE
              refine ⟨hi, ?_⟩
              show (popState C rb).pushedMessageCount =
                (popState C rb).poppedMessageCount + size C (popState C rb)
              rw [hpu, hpo]
              omega
            · rw [applyOp, tryPop_at_empty C rb hE]
              exact ⟨h1, h2⟩
      have happ : applyOps C rb (op :: ops) = applyOps C (applyOp C rb op) ops := rfl
      rw [happ]
      exact ih (applyOp C rb op) hstep.1 hstep.2

end SpScRingBuffer

open SpScRingBuffer in
/-- C1: `tryPush` on a full buffer returns `false` and changes nothing but
the dropped counter, which grows by exactly one; `tryPop` on an empty
buffer returns failure and changes no state at all. -/
theorem ringBuffer_full_push_empty_pop {T : Type} (C : Nat)
    (rb : SpScRingBuffer T) (x : T) :
    (full C rb = true →
      tryPush C rb x =
        (false, { rb with droppedMessageCount := rb.droppedMessageCount + 1 })) ∧
    (empty rb = true → tryPop C rb = (none, rb)) :=
  ⟨tryPush_full_eq C rb x, tryPop_at_empty C rb⟩

open SpScRingBuffer in
/-- Witness for C1: a concrete full buffer (capacity 2, one slot used) and
the concrete empty fresh buffer. -/
theorem ringBuffer_full_push_empty_pop_witness :
    (full 2 { (new : SpScRingBuffer Nat) with head := 1 } = true ∧
      tryPush 2 { (new : SpScRingBuffer Nat) with head := 1 } 7 =
        (false, { ({ (new : SpScRingBuffer Nat) with head := 1 }) with
                    droppedMessageCount :=
                      ({ (new : SpScRingBuffer Nat) with head := 1 }).droppedMessageCount + 1 })) ∧
    (empty (new : SpScRingBuffer Nat) = true ∧
      tryPop 2 (new : SpScRingBuffer Nat) = (none, (new : SpScRingBuffer Nat))) :=
  ⟨⟨rfl, (ringBuffer_full_push_empty_pop 2 { (new : SpScRingBuffer Nat) with head := 1 } 7).1 rfl⟩,
   ⟨rfl, (ringBuffer_full_push_empty_pop 2 (new : SpScRingBuffer Nat) 7).2 rfl⟩⟩

open SpScRingBuffer in
/-- C2: the ring buffer is FIFO — pushing a list into a buffer with enough
free slots succeeds entirely, and popping everything afterwards returns
the prior contents followed by the pushed items, in push order (for a
fresh buffer: exactly the pushed items). -/
theorem ringBuffer_fifo {T : Type} (C k : Nat) (hC : C = 2 ^ k) (hk : 1 ≤ k)
    (hk64 : k ≤ 64) (rb : SpScRingBuffer T) (hInv : Inv C rb) (L : List T)
    (hlen : size C rb + L.length ≤ C - 1) :
    (pushList C rb L).1 = true ∧
    (popN C (pushList C rb L).2 (size C rb + L.length)).1 = toList C rb ++ L := by
  obtain ⟨h1, h2, h3⟩ := pushList_spec hC hk hk64 L rb hInv hlen
  refine ⟨h1, ?_⟩
  have hlen2 : size C rb + L.length = (toList C rb ++ L).length := by
    rw [List.length_append, length_toList]
  rw [hlen2]
  exact popN_spec hC hk64 _ _ h2 h3

open SpScRingBuffer in
/-- Witness for C2: pushing `[10, 20, 30]` into a fresh capacity-4 buffer
and popping three times yields `[10, 20, 30]`. -/
theorem ringBuffer_fifo_witness :
    (pushList 4 (new : SpScRingBuffer Nat) [10, 20, 30]).1 = true ∧
    (popN 4 (pushList 4 (new : SpScRingBuffer Nat) [10, 20, 30]).2
        (size 4 (new : SpScRingBuffer Nat) + 3)).1 =
      toList 4 (new : SpScRingBuffer Nat) ++ [10, 20, 30] :=
  ringBuffer_fifo 4 2 rfl (by decide) (by decide) new (by decide) [10, 20, 30] (by decide)

open SpScRingBuffer in
/-- C3: both operations preserve `head, tail ∈ [0, C)`, and the occupancy
reported by `size()` is `(head - tail) mod C`, never exceeding `C - 1`. -/
theorem ringBuffer_invariant {T : Type} (C k : Nat) (hC : C = 2 ^ k)
    (hk64 : k ≤ 64) (rb : SpScRingBuffer T) (hInv : Inv C rb) (x : T) :
    Inv C (tryPush C rb x).2 ∧ Inv C (tryPop C rb).2 ∧
    size C rb = (rb.head + C - rb.tail) % C ∧ size C rb ≤ C - 1 := by
  have hCpos : 0 < C := by subst hC; positivity
  refine ⟨?_, ?_, sizeEq hC hk64 rb hInv, ?_⟩
  · cases hF : full C rb
    · have hk : 1 ≤ k := by
        by_contra hcon
        have hk0 : k = 0 := by omega
        have hC1 : C = 1 := by rw [hC, hk0]; decide
        subst hC1
        rw [full_of_capacity_one hInv] at hF
        simp at hF
      rw [tryPush_not_full_eq C rb x hF]
      exact (pushState_spec hC hk hk64 rb hInv hF x).1
    · rw [tryPush_full_eq C rb x hF]
      exact hInv
  · cases hE : empty rb
    · rw [tryPop_not_empty_eq C rb hE]
      exact (popState_spec hC hk64 rb hInv hE).1
    · rw [tryPop_at_empty C rb hE]
      exact hInv
  · have := size_lt hC hk64 rb hInv
    omega

open SpScRingBuffer in
/-- Witness for C3: capacity 4, a fresh buffer, one push and one pop. -/
theorem ringBuffer_invariant_witness :
    Inv 4 (tryPush 4 (new : SpScRingBuffer Nat) 5).2 ∧
    Inv 4 (tryPop 4 (new : SpScRingBuffer Nat)).2 ∧
    size 4 (new : SpScRingBuffer Nat) =
      ((new : SpScRingBuffer Nat).head + 4 - (new : SpScRingBuffer Nat).tail) % 4 ∧
    size 4 (new : SpScRingBuffer Nat) ≤ 3 :=
  ringBuffer_invariant 4 2 rfl (by decide) new (by decide) 5

open SpScRingBuffer in
/-- C4: a fresh buffer reports `empty` and not `full`; pushing any
`k ≤ C - 1` items into it succeeds throughout, and afterwards `full()`
holds exactly when `C - 1` items were pushed. -/
theorem ringBuffer_fresh_fill {T : Type} [Inhabited T] (C k : Nat)
    (hC : C = 2 ^ k) (hk : 1 ≤ k) (hk64 : k ≤ 64) (L : List T)
    (hlen : L.length ≤ C - 1) :
    empty (new : SpScRingBuffer T) = true ∧
    full C (new : SpScRingBuffer T) = false ∧
    (pushList C (new : SpScRingBuffer T) L).1 = true ∧
    full C (pushList C (new : SpScRingBuffer T) L).2 = decide (L.length = C - 1) := by
  have hCpos : 0 < C := by subst hC; positivity
  have hC2 : 2 ≤ C := by
    rw [hC]
    calc 2 = 2 ^ 1 := rfl
    _ ≤ 2 ^ k := Nat.pow_le_pow_right (by norm_num) hk
  have hInvN : Inv C (new : SpScRingBuffer T) := inv_new hCpos
  have hlenN : size C (new : SpScRingBuffer T) + L.length ≤ C - 1 := by
    rw [size_new]
    omega
  obtain ⟨h1, h2, h3⟩ := pushList_spec hC hk hk64 L new hInvN hlenN
  have hfullN : full C (new : SpScRingBuffer T) = false := by
    show ((((0 : Nat) + 1) &&& (C - 1)) == (0 : Nat)) = false
    rw [and_mask hC, Nat.mod_eq_of_lt (show 0 + 1 < C by omega)]
    decide
  have hszL : size C (pushList C (new : SpScRingBuffer T) L).2 = L.length := by
    rw [← length_toList, h3, toList_new]
    simp
  refine ⟨rfl, hfullN, h1, ?_⟩
  rw [Bool.eq_iff_iff, full_iff hC hk hk64 _ h2, hszL, decide_eq_true_eq]

open SpScRingBuffer in
/-- Witness for C4: capacity 4, pushing 3 items fills the buffer. -/
theorem ringBuffer_fresh_fill_witness :
    empty (new : SpScRingBuffer Nat) = true ∧
    full 4 (new : SpScRingBuffer Nat) = false ∧
    (pushList 4 (new : SpScRingBuffer Nat) [1, 2, 3]).1 = true ∧
    full 4 (pushList 4 (new : SpScRingBuffer Nat) [1, 2, 3]).2 =
      decide (([1, 2, 3] : List Nat).length = 4 - 1) :=
  ringBuffer_fresh_fill 4 2 rfl (by decide) (by decide) [1, 2, 3] (by decide)

open SpScRingBuffer in
/-- C10: along every operation sequence from a fresh buffer the counters
satisfy `pushed = popped + size`, and one further operation can only keep
or raise each of the dropped, pushed and popped counters. -/
theorem ringBuffer_counters {T : Type} [Inhabited T] (C k : Nat)
    (hC : C = 2 ^ k) (hk64 : k ≤ 64) (ops : List (RbOp T)) (op : RbOp T) :
    (applyOps C (new : SpScRingBuffer T) ops).pushedMessageCount =
      (applyOps C (new : SpScRingBuffer T) ops).poppedMessageCount +
        size C (applyOps C (new : SpScRingBuffer T) ops) ∧
    (applyOps C (new : SpScRingBuffer T) ops).droppedMessageCount ≤
      (applyOps C (new : SpScRingBuffer T) (ops ++ [op])).droppedMessageCount ∧
    (applyOps C (new : SpScRingBuffer T) ops).pushedMessageCount ≤
      (applyOps C (new : SpScRingBuffer T) (ops ++ [op])).pushedMessageCount ∧
    (applyOps C (new : SpScRingBuffer T) ops).poppedMessageCount ≤
      (applyOps C (new : SpScRingBuffer T) (ops ++ [op])).poppedMessageCount := by
  obtain ⟨-, heq⟩ := applyOps_counter_inv hC hk64 ops (T := T)
  have happ : applyOps C (new : SpScRingBuffer T) (ops ++ [op]) =
      applyOp C (applyOps C (new : SpScRingBuffer T) ops) op := by
    rw [applyOps, List.foldl_concat]
    rfl
  rw [happ]
  exact ⟨heq, applyOp_counters_mono C _ op⟩

open SpScRingBuffer in
/-- Witness for C10: capacity 4, the sequence push-pop-pop then one more
push. -/
theorem ringBuffer_counters_witness :
    (applyOps 4 (new : SpScRingBuffer Nat) [.push 1, .pop, .pop]).pushedMessageCount =
      (applyOps 4 (new : SpScRingBuffer Nat) [.push 1, .pop, .pop]).poppedMessageCount +
        size 4 (applyOps 4 (new : SpScRingBuffer Nat) [.push 1, .pop, .pop]) ∧
    (applyOps 4 (new : SpScRingBuffer Nat) [.push 1, .pop, .pop]).droppedMessageCount ≤
      (applyOps 4 (new : SpScRingBuffer Nat) ([.push 1, .pop, .pop] ++ [.push 2])).droppedMessageCount ∧
    (applyOps 4 (new : SpScRingBuffer Nat) [.push 1, .pop, .pop]).pushedMessageCount ≤
      (applyOps 4 (new : SpScRingBuffer Nat) ([.push 1, .pop, .pop] ++ [.push 2])).pushedMessageCount ∧
    (applyOps 4 (new : SpScRingBuffer Nat) [.push 1, .pop, .pop]).poppedMessageCount ≤
      (applyOps 4 (new : SpScRingBuffer Nat) ([.push 1, .pop, .pop] ++ [.push 2])).poppedMessageCount :=
  ringBuffer_counters 4 2 rfl (by decide) [.push 1, .pop, .pop] (.push 2)

/-- Witness for C6 at a concrete message. -/
theorem itchMessage_roundTrip_witness :
    ({ type := 65, orderId := 77, symbol := [65, 65, 80, 76, 0, 0, 0, 0],
       size := 100, price := 150, side := 0, tsNanoSeconds := 123456789,
       sequenceNumber := 42 } : ItchMessage).toNetworkOrder.toHostOrder =
      { type := 65, orderId := 77, symbol := [65, 65, 80, 76, 0, 0, 0, 0],
        size := 100, price := 150, side := 0, tsNanoSeconds := 123456789,
        sequenceNumber := 42 } :=
  (itchMessage_roundTrip _ (by decide)).1

/-- A power of two ANDed with its predecessor is zero. -/
theorem pow2_land_pred (j : Nat) : 2 ^ j &&& (2 ^ j - 1) = 0 := by
  apply Nat.zero_of_testBit_eq_false
  intro i
  rw [Nat.testBit_land, Nat.testBit_two_pow, Nat.testBit_two_pow_sub_one]
  by_cases h : j = i
  · subst h; simp
  · simp [h]

/-- A positive number whose AND with its predecessor vanishes is a power
of two. -/
theorem pow2_of_land_pred_eq_zero : ∀ c, 1 ≤ c → c &&& (c - 1) = 0 → ∃ j, c = 2 ^ j := by
  intro c
  induction c using Nat.strong_induction_on with
  | _ c ih =>
    intro hc1 hand
    rcases Nat.even_or_odd c with he | ho
    · obtain ⟨m, hm⟩ := he
      have hm2 : c = 2 * m := by omega
      have hm1 : 1 ≤ m := by omega
      have hand' : m &&& (m - 1) = 0 := by
        apply Nat.zero_of_testBit_eq_false
        intro i
        have h := congrArg (fun n => n.testBit (i + 1)) hand
        simp only at h
        rw [Nat.testBit_land] at h ⊢
        rw [Nat.zero_testBit] at h
        have e1 : c.testBit (i + 1) = m.testBit i := by
          rw [Nat.testBit_succ]
          congr 1
          omega
        have e2 : (c - 1).testBit (i + 1) = (m - 1).testBit i := by
          rw [Nat.testBit_succ]
          congr 1
          omega
        rw [e1, e2] at h
        exact h
      obtain ⟨j, hj⟩ := ih m (by omega) hm1 hand'
      refine ⟨j + 1, ?_⟩
      rw [hm2, hj, pow_succ]
      ring
    · rcases Nat.eq_or_lt_of_le hc1 with h1 | h2
      · exact ⟨0, by omega⟩
      · exfalso
        have hodd : c % 2 = 1 := Nat.odd_iff.mp ho
        have hne : c / 2 ≠ 0 := by omega
        have hex : ∃ i, (c / 2).testBit i = true := by
          by_contra hno
          push_neg at hno
          exact hne (Nat.zero_of_testBit_eq_false
            (fun i => Bool.not_eq_true _ ▸ hno i))
        obtain ⟨i, hi⟩ := hex
        have ht1 : c.testBit (i + 1) = true := by rw [Nat.testBit_succ]; exact hi
        have ht2 : (c - 1).testBit (i + 1) = true := by
          rw [Nat.testBit_succ]
          have e : (c - 1) / 2 = c / 2 := by omega
          rw [e]
          exact hi
        have h := congrArg (fun n => n.testBit (i + 1)) hand
        simp only at h
        rw [Nat.testBit_land, Nat.zero_testBit, ht1, ht2] at h
        simp at h

/-- The `size_t` subtraction of one does not wrap for positive representable
operands. -/
theorem sub64_one {c : Nat} (h1 : 1 ≤ c) (h2 : c < 2 ^ 64) : sub64 c 1 = c - 1 := by
  rw [sub64]
  have e : c + 2 ^ 64 - 1 = (c - 1) + 2 ^ 64 := by omega
  rw [e, Nat.add_mod_right, Nat.mod_eq_of_lt (by omega)]

/-- C5 counterexample: capacity 1 passes the only construction-time check
of `src/common/spsc_ringbuffer.h` (the power-of-two bitmask test), yet it
is not at least 2 — so it is not true of that check that every capacity
passing construction is at least 2. -/
theorem capacityCheck_counterexample :
    capacityCheckPow2 1 = true ∧ ¬ (2 ≤ 1) := by
  refine ⟨?_, by omega⟩
  decide

/-- C5 (amended): the `src/unnamed/part_006` variant checks the bitmask
test and `Capacity >= 2`; for every representable `size_t` capacity, that
pair of checks passes exactly when the capacity is a power of two and at
least 2. -/
theorem capacityCheckFull_iff (c : Nat) (hc : c < 2 ^ 64) :
    capacityCheckFull c = true ↔ ((∃ j, c = 2 ^ j) ∧ 2 ≤ c) := by
  rw [capacityCheckFull, Bool.and_eq_true, decide_eq_true_eq]
  constructor
  · rintro ⟨hp, h2⟩
    refine ⟨?_, h2⟩
    rw [capacityCheckPow2, beq_iff_eq, sub64_one (by omega) hc] at hp
    exact pow2_of_land_pred_eq_zero c (by omega) hp
  · rintro ⟨⟨j, hj⟩, h2⟩
    refine ⟨?_, h2⟩
    rw [capacityCheckPow2, beq_iff_eq, sub64_one (by omega) hc, hj]
    exact pow2_land_pred j

/-- Witness for the amended C5 at capacity 4. -/
theorem capacityCheckFull_iff_witness :
    (4 : Nat) < 2 ^ 64 ∧
    (capacityCheckFull 4 = true ↔ ((∃ j, (4 : Nat) = 2 ^ j) ∧ 2 ≤ 4)) :=
  ⟨by norm_num, capacityCheckFull_iff 4 (by norm_num)⟩

/-- C7: on the spec's concrete scenario (recorded timestamps 0 ns and
1 000 000 ns, speed factor 2.0) the replay code computes send offset 0 for
both messages — the `firstTs == 0` sentinel re-anchors on the second
message — so the second message goes out 0 ns after the first, not the
500 000 ns that `(recordedTimestamp - firstTimestamp) / speedFactor`
prescribes. -/
theorem replay_zero_anchor_bug :
    replayDeltas 2 [0, 1000000] = [0, 0] ∧
    (Int.floor (((1000000 : Nat) : Rat) / 2)).toNat = 500000 := by
  constructor
  · show replayDeltasAux 2 0 [0, 1000000] = [0, 0]
    norm_num [replayDeltasAux, sub64]
  · have h : Int.floor (((1000000 : Nat) : Rat) / 2) = 500000 := by norm_num
    rw [h]
    rfl

/-- Helper: record validation aborts `loadAllMessages` as soon as any
record of the remaining input is invalid, and the abort leaves
`_total_messages` and `_current_index` untouched. -/
theorem loadAllMessagesAux_invalid :
    ∀ (records : List ItchMessage) (st : ItchReplayerState) (idx : Nat),
      (∃ m ∈ records, invalidRecord m = true) →
      (∃ i : Nat, (loadAllMessagesAux st idx records).1 =
          Except.error ("Invalid message at index " ++ toString i)) ∧
      (loadAllMessagesAux st idx records).2.totalMessages = st.totalMessages ∧
      (loadAllMessagesAux st idx records).2.currentIndex = st.currentIndex := by
  intro records
  induction records with
  | nil =>
      intro st idx h
      simp at h
  | cons m rest ih =>
      intro st idx h
      by_cases hm : invalidRecord m = true
      · refine ⟨⟨idx, ?_⟩, ?_, ?_⟩ <;> simp [loadAllMessagesAux, hm]
      · have hm' : invalidRecord m = false := by
          cases hI : invalidRecord m
          · rfl
          · exact absurd hI hm
        have hb : ∃ m' ∈ rest, invalidRecord m' = true := by
          rcases h with ⟨m', hmem, hbad⟩
          rcases List.mem_cons.mp hmem with rfl | hmem'
          · exact absurd hbad hm
          · exact ⟨m', hmem', hbad⟩
        obtain ⟨he, ht, hc⟩ := ih { st with messages := st.messages ++ [m] } (idx + 1) hb
        simp only [loadAllMessagesAux, hm']
        exact ⟨he, ht, hc⟩

/-- Helper: with `_total_messages = 0` the replay loop sends nothing. -/
theorem replayLoop_done (st : ItchReplayerState) (h : st.totalMessages = 0) :
    (replayLoop st).1 = [] := by
  rw [replayLoop]
  simp [h]

/-- C8: a capture containing any record with a NUL-leading symbol, a zero
size or a non-positive price makes `loadAllMessages` abort with the
descriptive per-index error, and after the failed load the replay loop
sends nothing (`_total_messages` is never set). -/
theorem loadAllMessages_rejects_invalid (records : List ItchMessage)
    (st : ItchReplayerState) (hst : st.totalMessages = 0)
    (hbad : ∃ m ∈ records, invalidRecord m = true) :
    (∃ i : Nat, (loadAllMessages records st).1 =
        Except.error ("Invalid message at index " ++ toString i)) ∧
    (replayLoop (loadAllMessages records st).2).1 = [] := by
  obtain ⟨he, ht, -⟩ :=
    loadAllMessagesAux_invalid records { st with messages := [] } 0 hbad
  refine ⟨he, ?_⟩
  apply replayLoop_done
  have hEq : loadAllMessages records st =
      loadAllMessagesAux { st with messages := [] } 0 records := rfl
  rw [hEq, ht]
  exact hst

/-- Witness for C8: a capture holding the all-zero message (empty symbol,
zero size, zero price) fails to load into a fresh replayer, which then
replays nothing. -/
theorem loadAllMessages_rejects_invalid_witness :
    (∃ i : Nat, (loadAllMessages [ItchMessage.zero] ItchReplayerState.fresh).1 =
        Except.error ("Invalid message at index " ++ toString i)) ∧
    (replayLoop (loadAllMessages [ItchMessage.zero] ItchReplayerState.fresh).2).1 = [] :=
  loadAllMessages_rejects_invalid [ItchMessage.zero] ItchReplayerState.fresh rfl
    (by decide)

/-- C9: `start()` on a running listener is rejected with the explicit
runtime error (and, the exception being thrown before any mutation, the
listener is unchanged); `stop()` always leaves a stopped listener, is
idempotent, and a repeated `stop()` performs no further join. -/
theorem listener_lifecycle (l : ItchUdpListener) :
    (l.isRunning = true →
      l.start = Except.error "ItchUdpListener already running") ∧
    l.stop.isRunning = false ∧
    l.stop.stop = l.stop ∧
    l.stop.stop.joinCount = l.stop.joinCount := by
  refine ⟨?_, rfl, ?_, ?_⟩
  · intro h
    simp [ItchUdpListener.start, h]
  · simp [ItchUdpListener.stop]
  · simp [ItchUdpListener.stop]

/-- Witness for C9 on a concrete running listener. -/
theorem listener_lifecycle_witness :
    ({ ItchUdpListener.fresh with isRunning := true, threadJoinable := true }).start =
      Except.error "ItchUdpListener already running" ∧
    ({ ItchUdpListener.fresh with isRunning := true, threadJoinable := true }).stop.stop =
      ({ ItchUdpListener.fresh with isRunning := true, threadJoinable := true }).stop :=
  ⟨(listener_lifecycle _).1 rfl, (listener_lifecycle _).2.2.1⟩

end HftSim
